import Mathlib

/-!
Verification of the EGA asset extractor (src/src/main.rs).

The source is a small Rust program that decodes two legacy 4-bit EGA raster
formats (a 32,000-byte full-screen planar bitmap and a sprite-sheet container
of interleaved-nibble frames), scales each decoded frame by fixed factors
5 times 6, and hands the RGBA buffer to an external PNG encoder.

Embedding conventions:
  * bytes are `Nat` values; where a claim depends on byte range we carry the
    hypothesis that every element is below 256 (Rust guarantees this by the
    `u8` type);
  * pixel buffers are `List Nat` in the same row-major RGBA layout the Rust
    code writes (the imperative loops write each output position exactly once,
    in row-major order, so the buffer is the flattened list of the generated
    4-byte colors in loop order);
  * slice indexing `src[i]` is `List.getD src i 0` where the relevant claim
    restricts to in-bounds inputs; the sprite-sheet walking loop, whose
    out-of-bounds behaviour is itself under scrutiny, instead carries explicit
    bound checks that mirror exactly the panics Rust would raise;
  * the walking loop of `extract_sprites_ega` need not terminate (a record
    size of zero never advances the cursor), so it is modelled with explicit
    fuel, with a distinguished result for fuel exhaustion.
-/

/-- EGA_PAL from main.rs lines 29-46: the fixed 16-entry RGBA palette.
Index 0 is transparent, index 8 is opaque black. -/
def EGA_PAL : List (List Nat) := [
  [0x00, 0x00, 0x00, 0x00],
  [0x00, 0x00, 0xc4, 0xff],
  [0x00, 0xc4, 0x00, 0xff],
  [0x00, 0xc4, 0xc4, 0xff],
  [0xc4, 0x00, 0x00, 0xff],
  [0xc4, 0x00, 0xc4, 0xff],
  [0xc4, 0x7e, 0x00, 0xff],
  [0xc4, 0xc4, 0xc4, 0xff],
  [0x00, 0x00, 0x00, 0xff],
  [0x4e, 0x4e, 0xdc, 0xff],
  [0x4e, 0xdc, 0x4e, 0xff],
  [0x4e, 0xf3, 0xf3, 0xff],
  [0xdc, 0x4e, 0x4e, 0xff],
  [0xf3, 0x4e, 0xf3, 0xff],
  [0xf3, 0xf3, 0x4e, 0xff],
  [0xff, 0xff, 0xff, 0xff]]

/-- Palette lookup `EGA_PAL[v]`. The Rust indexing panics above 15; the
decoders only ever produce indices below 16, which the lemmas record. -/
def egaColor (v : Nat) : List Nat := EGA_PAL.getD v []

/-- Palette index of pixel (x, y) in `decode_planar_ega_to_rgba`
(main.rs lines 56-64): one bit from each of the four 8000-byte planes,
plane 3 as most significant bit.  `PLANE_SIZE = 8000`. -/
def planarIndex (src : List Nat) (width x y : Nat) : Nat :=
  let ofs := width * y + x
  let bitofs := 7 - x % 8
  let p0 := (src.getD (0 * 8000 + ofs / 8) 0 >>> bitofs) &&& 1
  let p1 := (src.getD (1 * 8000 + ofs / 8) 0 >>> bitofs) &&& 1
  let p2 := (src.getD (2 * 8000 + ofs / 8) 0 >>> bitofs) &&& 1
  let p3 := (src.getD (3 * 8000 + ofs / 8) 0 >>> bitofs) &&& 1
  (p3 <<< 3) ||| (p2 <<< 2) ||| (p1 <<< 1) ||| p0

/-- decode_planar_ega_to_rgba (main.rs lines 49-73).  The Rust loops over
y then x and write the 4 palette bytes of each pixel at
`frame[4*(y*width+x)+c]`; every position is written exactly once, in
row-major order, so the buffer equals this flattened generation. -/
def decode_planar_ega_to_rgba (src : List Nat) (width height : Nat) : List Nat :=
  ((List.range height).map (fun y =>
    ((List.range width).map (fun x =>
      egaColor (planarIndex src width x y))).flatten)).flatten

/-- Modelled from the claim C1 wording (refinement comparison only, not from
the source): bit position `7 - (ofs mod 8)` of the byte at `k*8000 + ofs/8`
for each plane k, composed with plane 3 as the most significant bit.  The
source (`planarIndex`) uses `7 - x % 8` instead; the two agree whenever the
row width is a multiple of 8, in particular at width 320. -/
def specPlanarIndex (src : List Nat) (ofs : Nat) : Nat :=
  let bitofs := 7 - ofs % 8
  let p0 := (src.getD (0 * 8000 + ofs / 8) 0 >>> bitofs) &&& 1
  let p1 := (src.getD (1 * 8000 + ofs / 8) 0 >>> bitofs) &&& 1
  let p2 := (src.getD (2 * 8000 + ofs / 8) 0 >>> bitofs) &&& 1
  let p3 := (src.getD (3 * 8000 + ofs / 8) 0 >>> bitofs) &&& 1
  (p3 <<< 3) ||| (p2 <<< 2) ||| (p1 <<< 1) ||| p0

/-- Palette index of pixel (x, y) in `decode_interleaved_ega_to_rgba`
(main.rs lines 81-83): byte at `y*span + x/2`, high nibble for even x,
low nibble for odd x. -/
def nibbleAt (src : List Nat) (span x y : Nat) : Nat :=
  let b := src.getD (y * span + x / 2) 0
  if x % 2 = 0 then b >>> 4 else b &&& 0x0f

/-- decode_interleaved_ega_to_rgba (main.rs lines 75-92), embedded the same
way as the planar decoder: width is `2*span`, buffer is row-major RGBA. -/
def decode_interleaved_ega_to_rgba (src : List Nat) (span height : Nat) : List Nat :=
  ((List.range height).map (fun y =>
    ((List.range (2 * span)).map (fun x =>
      egaColor (nibbleAt src span x y))).flatten)).flatten

/-! Generic facts about flattened constant-size blocks, used to read single
bytes out of the row-major buffers the decoders produce. -/

/-- Indexing into a flattened list of equal-length blocks selects block `i`,
position `c`. -/
theorem flatten_getElem_blocks {α : Type} (l : List (List α)) (k i c : Nat)
    (hk : ∀ a ∈ l, a.length = k) (hc : c < k) :
    l.flatten[k * i + c]? = l[i]?.bind (fun a => a[c]?) := by
  induction l generalizing i with
  | nil => simp
  | cons hd tl ih =>
    have hhd : hd.length = k := hk hd (List.mem_cons_self hd tl)
    cases i with
    | zero =>
      have h0 : k * 0 + c = c := by omega
      rw [h0, List.flatten_cons, List.getElem?_append_left (by omega)]
      simp
    | succ j =>
      have hsucc : k * (j + 1) + c = k + (k * j + c) := by
        rw [Nat.mul_succ]; ring
      rw [hsucc, List.flatten_cons, List.getElem?_append_right (by omega)]
      have hidx : k + (k * j + c) - hd.length = k * j + c := by omega
      rw [hidx, ih j (fun a ha => hk a (List.mem_cons_of_mem _ ha))]
      simp

/-- Specialization to blocks generated from `List.range`. -/
theorem range_map_flatten_getElem {α : Type} (f : Nat → List α) (n k i c : Nat)
    (hf : ∀ j, j < n → (f j).length = k) (hi : i < n) (hc : c < k) :
    ((List.range n).map f).flatten[k * i + c]? = (f i)[c]? := by
  rw [flatten_getElem_blocks _ k i c ?hk hc]
  · rw [List.getElem?_map, List.getElem?_range hi]
    rfl
  case hk =>
    intro a ha
    obtain ⟨j, hj, rfl⟩ := List.mem_map.mp ha
    exact hf j (List.mem_range.mp hj)

/-- Length of a flattened list of equal-length blocks. -/
theorem flatten_length_const {α : Type} (l : List (List α)) (k : Nat)
    (hk : ∀ a ∈ l, a.length = k) : l.flatten.length = l.length * k := by
  induction l with
  | nil => simp
  | cons hd tl ih =>
    have hhd : hd.length = k := hk hd (List.mem_cons_self hd tl)
    have htl : tl.flatten.length = tl.length * k :=
      ih (fun a ha => hk a (List.mem_cons_of_mem _ ha))
    simp only [List.flatten_cons, List.length_append, List.length_cons, htl, hhd,
      Nat.succ_mul]
    omega

/-- Length of flattened range-generated blocks. -/
theorem range_map_flatten_length {α : Type} (f : Nat → List α) (n k : Nat)
    (hf : ∀ j, j < n → (f j).length = k) :
    ((List.range n).map f).flatten.length = n * k := by
  rw [flatten_length_const _ k ?hk, List.length_map, List.length_range]
  case hk =>
    intro a ha
    obtain ⟨j, hj, rfl⟩ := List.mem_map.mp ha
    exact hf j (List.mem_range.mp hj)

/-- Every palette entry below index 16 has the 4 RGBA bytes. -/
theorem egaColor_length : ∀ v, v < 16 → (egaColor v).length = 4 := by decide

/-- Composition bound: four bits shifted into the four low positions stay below 16. -/
theorem fourBits_lt : ∀ a b c d : Nat, a ≤ 1 → b ≤ 1 → c ≤ 1 → d ≤ 1 →
    (a <<< 3) ||| (b <<< 2) ||| (c <<< 1) ||| d < 16 := by
  intro a b c d ha hb hc hd
  interval_cases a <;> interval_cases b <;> interval_cases c <;> interval_cases d <;> decide

/-- A planar palette index is always below 16. -/
theorem planarIndex_lt (src : List Nat) (w x y : Nat) : planarIndex src w x y < 16 := by
  simp only [planarIndex]
  exact fourBits_lt _ _ _ _ Nat.and_le_right Nat.and_le_right Nat.and_le_right Nat.and_le_right

/-- The spec-side planar index is also below 16. -/
theorem specPlanarIndex_lt (src : List Nat) (ofs : Nat) : specPlanarIndex src ofs < 16 := by
  simp only [specPlanarIndex]
  exact fourBits_lt _ _ _ _ Nat.and_le_right Nat.and_le_right Nat.and_le_right Nat.and_le_right

/-- Reading a byte list (all elements below 256) with default 0 stays below 256. -/
theorem getD_lt_256 (src : List Nat) (hb : ∀ b ∈ src, b < 256) (i : Nat) :
    src.getD i 0 < 256 := by
  rw [List.getD_eq_getElem?_getD]
  cases h : src[i]? with
  | none => simp
  | some b => simpa using hb b (List.getElem?_mem h)

/-- A nibble of a byte below 256 is below 16. -/
theorem nibbleAt_lt (src : List Nat) (span x y : Nat) (hb : ∀ b ∈ src, b < 256) :
    nibbleAt src span x y < 16 := by
  simp only [nibbleAt]
  have hby := getD_lt_256 src hb (y * span + x / 2)
  split
  · rw [Nat.shiftRight_eq_div_pow]
    omega
  · have : src.getD (y * span + x / 2) 0 &&& 0x0f ≤ 0x0f := Nat.and_le_right
    omega

/-- Each generated pixel row of the planar decoder has length `width * 4`. -/
theorem planar_row_length (src : List Nat) (w y : Nat) :
    (((List.range w).map (fun x => egaColor (planarIndex src w x y))).flatten).length = w * 4 :=
  range_map_flatten_length _ _ _ (fun _ _ => egaColor_length _ (planarIndex_lt _ _ _ _))

/-- Byte `c` of pixel (x, y) of the planar decoder output is byte `c` of the
palette entry selected by `planarIndex`. -/
theorem decode_planar_getElem (src : List Nat) (w h x y c : Nat)
    (hx : x < w) (hy : y < h) (hc : c < 4) :
    (decode_planar_ega_to_rgba src w h)[4 * (w * y + x) + c]? =
      (egaColor (planarIndex src w x y))[c]? := by
  unfold decode_planar_ega_to_rgba
  have hidx : 4 * (w * y + x) + c = (w * 4) * y + (4 * x + c) := by ring
  rw [hidx, range_map_flatten_getElem _ h (w * 4) y (4 * x + c)
    (fun j _ => planar_row_length src w j) hy (by omega)]
  exact range_map_flatten_getElem _ w 4 x c
    (fun i _ => egaColor_length _ (planarIndex_lt _ _ _ _)) hx hc

/-- Total length of the planar decoder output. -/
theorem decode_planar_length (src : List Nat) (w h : Nat) :
    (decode_planar_ega_to_rgba src w h).length = w * h * 4 := by
  unfold decode_planar_ega_to_rgba
  rw [range_map_flatten_length _ h (w * 4) (fun j _ => planar_row_length src w j)]
  ring

/-- Each generated pixel row of the interleaved decoder has length
`2 * span * 4`, provided the source consists of bytes. -/
theorem interleaved_row_length (src : List Nat) (span y : Nat) (hb : ∀ b ∈ src, b < 256) :
    (((List.range (2 * span)).map (fun x => egaColor (nibbleAt src span x y))).flatten).length
      = (2 * span) * 4 :=
  range_map_flatten_length _ _ _ (fun _ _ => egaColor_length _ (nibbleAt_lt _ _ _ _ hb))

/-- Byte `c` of pixel (x, y) of the interleaved decoder output is byte `c`
of the palette entry selected by `nibbleAt`. -/
theorem decode_interleaved_getElem (src : List Nat) (span hgt x y c : Nat)
    (hb : ∀ b ∈ src, b < 256) (hx : x < 2 * span) (hy : y < hgt) (hc : c < 4) :
    (decode_interleaved_ega_to_rgba src span hgt)[4 * ((2 * span) * y + x) + c]? =
      (egaColor (nibbleAt src span x y))[c]? := by
  unfold decode_interleaved_ega_to_rgba
  have hidx : 4 * ((2 * span) * y + x) + c = ((2 * span) * 4) * y + (4 * x + c) := by ring
  rw [hidx, range_map_flatten_getElem _ hgt ((2 * span) * 4) y (4 * x + c)
    (fun j _ => interleaved_row_length src span j hb) hy (by omega)]
  exact range_map_flatten_getElem _ (2 * span) 4 x c
    (fun i _ => egaColor_length _ (nibbleAt_lt _ _ _ _ hb)) hx hc

/-- Total length of the interleaved decoder output. -/
theorem decode_interleaved_length (src : List Nat) (span hgt : Nat)
    (hb : ∀ b ∈ src, b < 256) :
    (decode_interleaved_ega_to_rgba src span hgt).length = (2 * span) * hgt * 4 := by
  unfold decode_interleaved_ega_to_rgba
  rw [range_map_flatten_length _ hgt ((2 * span) * 4)
    (fun j _ => interleaved_row_length src span j hb)]
  ring

/-- At width 320 the bit position the source uses (`7 - x % 8`) coincides
with the one the spec states (`7 - ofs % 8`), because 320 is a multiple
of 8, so the two index formulas agree. -/
theorem planarIndex_eq_spec (src : List Nat) (x y : Nat) :
    planarIndex src 320 x y = specPlanarIndex src (320 * y + x) := by
  simp only [planarIndex, specPlanarIndex]
  have h8 : (320 * y + x) % 8 = x % 8 := by omega
  rw [h8]

/-- Reading a replicated list with default 0. -/
theorem getD_replicate_eq (n a i : Nat) :
    (List.replicate n a).getD i 0 = if i < n then a else 0 := by
  rw [List.getD_eq_getElem?_getD, List.getElem?_replicate]
  split <;> simp

/-- On the all-zero plane buffer every spec planar index is 0. -/
theorem specPlanarIndex_zero (ofs : Nat) :
    specPlanarIndex (List.replicate 32000 0) ofs = 0 := by
  simp only [specPlanarIndex, getD_replicate_eq, ite_self]
  simp

/-- On the all-ones (0xff) plane buffer every in-range spec planar index is 15. -/
theorem specPlanarIndex_ones (ofs : Nat) (hofs : ofs < 64000) :
    specPlanarIndex (List.replicate 32000 0xff) ofs = 15 := by
  simp only [specPlanarIndex, getD_replicate_eq]
  rw [if_pos (by omega), if_pos (by omega), if_pos (by omega), if_pos (by omega)]
  obtain ⟨m, hm8, hme⟩ : ∃ m, m < 8 ∧ ofs % 8 = m :=
    ⟨ofs % 8, Nat.mod_lt _ (by norm_num), rfl⟩
  rw [hme]
  interval_cases m <;> decide

/-- C1: for a 32,000-byte input, the planar decode at width 320 and height
200 places at row-major byte position `4*(320*y+x)+c` exactly byte `c` of the
palette entry selected by the spec formula (bit `7-(ofs mod 8)` of the byte
at `k*8000 + ofs/8` of plane k, plane 3 most significant); an all-zero input
gives every pixel palette entry 0, an all-0xff input gives every pixel
palette entry 15; the output buffer has 320*200 RGBA pixels. -/
theorem planar_decode_claim :
    (∀ (src : List Nat) (x y c : Nat), src.length = 32000 → x < 320 → y < 200 → c < 4 →
      (decode_planar_ega_to_rgba src 320 200)[4 * (320 * y + x) + c]? =
        (egaColor (specPlanarIndex src (320 * y + x)))[c]?)
    ∧ (∀ x y c : Nat, x < 320 → y < 200 → c < 4 →
      (decode_planar_ega_to_rgba (List.replicate 32000 0) 320 200)[4 * (320 * y + x) + c]? =
        (egaColor 0)[c]?)
    ∧ (∀ x y c : Nat, x < 320 → y < 200 → c < 4 →
      (decode_planar_ega_to_rgba (List.replicate 32000 0xff) 320 200)[4 * (320 * y + x) + c]? =
        (egaColor 15)[c]?)
    ∧ (∀ src : List Nat, (decode_planar_ega_to_rgba src 320 200).length = 320 * 200 * 4) := by
  have key : ∀ (src : List Nat) (x y c : Nat), x < 320 → y < 200 → c < 4 →
      (decode_planar_ega_to_rgba src 320 200)[4 * (320 * y + x) + c]? =
        (egaColor (specPlanarIndex src (320 * y + x)))[c]? := by
    intro src x y c hx hy hc
    rw [decode_planar_getElem src 320 200 x y c hx hy hc, planarIndex_eq_spec]
  refine ⟨fun src x y c _ hx hy hc => key src x y c hx hy hc, ?_, ?_, ?_⟩
  · intro x y c hx hy hc
    rw [key _ x y c hx hy hc, specPlanarIndex_zero]
  · intro x y c hx hy hc
    rw [key _ x y c hx hy hc, specPlanarIndex_ones _ (by omega)]
  · intro src
    exact decode_planar_length src 320 200

/-- Witness for C1: the claim instantiated at the all-zero input, pixel
(0, 0), byte 0. -/
theorem planar_decode_claim_witness :
    (decode_planar_ega_to_rgba (List.replicate 32000 0) 320 200)[4 * (320 * 0 + 0) + 0]? =
      (egaColor (specPlanarIndex (List.replicate 32000 0) (320 * 0 + 0)))[0]? :=
  planar_decode_claim.1 (List.replicate 32000 0) 0 0 0 (List.length_replicate 32000 0)
    (by norm_num) (by norm_num) (by norm_num)

/-- C2: the interleaved decode of a byte slice with a given span and height
places at row-major byte position `4*((2*span)*y+x)+c` byte `c` of the
palette entry for the high nibble of `src[y*span + x/2]` when x is even and
the low nibble when x is odd; the byte 0xa5 with span 1, height 1 decodes to
palette entries 0xa then 0x5; the output has `(2*span)*height` RGBA pixels. -/
theorem interleaved_decode_claim :
    (∀ (src : List Nat) (span hgt x y c : Nat), (∀ b ∈ src, b < 256) →
      span * hgt ≤ src.length → x < 2 * span → y < hgt → c < 4 →
      (decode_interleaved_ega_to_rgba src span hgt)[4 * ((2 * span) * y + x) + c]? =
        (egaColor (if x % 2 = 0 then src.getD (y * span + x / 2) 0 >>> 4
          else src.getD (y * span + x / 2) 0 &&& 0x0f))[c]?)
    ∧ decode_interleaved_ega_to_rgba [0xa5] 1 1 = egaColor 0xa ++ egaColor 0x5
    ∧ (∀ (src : List Nat) (span hgt : Nat), (∀ b ∈ src, b < 256) →
        (decode_interleaved_ega_to_rgba src span hgt).length = (2 * span) * hgt * 4) := by
  refine ⟨?_, by decide, fun src span hgt hb => decode_interleaved_length src span hgt hb⟩
  intro src span hgt x y c hb _ hx hy hc
  rw [decode_interleaved_getElem src span hgt x y c hb hx hy hc]
  rfl

/-- Witness for C2: the claim instantiated at the single byte 0xa5,
span 1, height 1, pixel (0, 0), byte 1. -/
theorem interleaved_decode_claim_witness :
    (decode_interleaved_ega_to_rgba [0xa5] 1 1)[4 * ((2 * 1) * 0 + 0) + 1]? =
      (egaColor (if 0 % 2 = 0 then List.getD [0xa5] (0 * 1 + 0 / 2) 0 >>> 4
        else List.getD [0xa5] (0 * 1 + 0 / 2) 0 &&& 0x0f))[1]? :=
  interleaved_decode_claim.1 [0xa5] 1 1 0 0 1 (by decide) (by decide) (by decide)
    (by decide) (by decide)

/-- C7: every palette entry is a 4-byte RGBA quadruplet, the alpha byte
(position 3) is 0 exactly for index 0, every entry with a nonzero index has
alpha exactly 0xff (fully opaque), and entry 8 is opaque black. -/
theorem palette_alpha_claim :
    (∀ i, i < 16 → (EGA_PAL.getD i []).length = 4 ∧
      ((EGA_PAL.getD i []).getD 3 0 = 0 ↔ i = 0) ∧
      (i ≠ 0 → (EGA_PAL.getD i []).getD 3 0 = 0xff))
    ∧ EGA_PAL.getD 8 [] = [0, 0, 0, 0xff] := by
  exact ⟨by decide, by decide⟩

/-- Witness for C7: the claim instantiated at index 8. -/
theorem palette_alpha_claim_witness :
    (EGA_PAL.getD 8 []).length = 4 ∧ ((EGA_PAL.getD 8 []).getD 3 0 = 0 ↔ 8 = 0) ∧
      (8 ≠ 0 → (EGA_PAL.getD 8 []).getD 3 0 = 0xff) :=
  palette_alpha_claim.1 8 (by norm_num)

/-- C8: both decoders are pure functions of their arguments, so decoding the
same bytes twice (same width/height, respectively same span/height) yields
byte-identical pixel buffers. -/
theorem decoders_deterministic :
    ∀ (src : List Nat) (w h : Nat) (src2 : List Nat) (span h2 : Nat),
      decode_planar_ega_to_rgba src w h = decode_planar_ega_to_rgba src w h ∧
      decode_interleaved_ega_to_rgba src2 span h2 = decode_interleaved_ega_to_rgba src2 span h2 :=
  fun _ _ _ _ _ _ => ⟨rfl, rfl⟩

/-- One RGBA pixel (4 bytes) copied from position `ofs` of a source buffer,
as the innermost `c` loop of `write_rgba_to_png` does (main.rs lines 128-130). -/
def pixelBytes (data : List Nat) (ofs : Nat) : List Nat :=
  (List.range 4).map fun c => data.getD (4 * ofs + c) 0

/-- Scaling loop of write_rgba_to_png (main.rs lines 118-134): loops over
y, dy, x, dx write the source pixel `y*width+x` at scaled position
`(6*y+dy)*scaled_width + (5*x+dx)`; the writes enumerate every scaled
position exactly once in row-major order, so the buffer equals this
flattened generation in the same loop order. -/
def scale_rgba (data : List Nat) (width height : Nat) : List Nat :=
  ((List.range height).map (fun y =>
    ((List.range 6).map (fun _dy =>
      ((List.range width).map (fun x =>
        ((List.range 5).map (fun _dx =>
          pixelBytes data (y * width + x))).flatten)).flatten)).flatten)).flatten

/-- Image handed to the external PNG encoder: explicit width and height
plus the RGBA bytes (main.rs lines 109-136). -/
structure EncodedImage where
  width : Nat
  height : Nat
  data : List Nat
deriving DecidableEq

/-- write_rgba_to_png (main.rs lines 94-139), restricted to its pure part:
scale factors are the fixed constants 5 (width) and 6 (height); the scaled
buffer and the scaled dimensions are handed to the encoder. -/
def write_rgba_to_png (data : List Nat) (width height : Nat) : EncodedImage :=
  ⟨5 * width, 6 * height, scale_rgba data width height⟩

/-- Each copied pixel block has 4 bytes. -/
theorem pixelBytes_length (data : List Nat) (ofs : Nat) : (pixelBytes data ofs).length = 4 := by
  simp [pixelBytes]

/-- Five horizontal copies of one pixel are 20 bytes. -/
theorem scaleBlockDx_length (data : List Nat) (w y x : Nat) :
    (((List.range 5).map (fun _dx => pixelBytes data (y * w + x))).flatten).length = 20 := by
  rw [range_map_flatten_length _ 5 4 (fun _ _ => pixelBytes_length _ _)]

/-- One scaled output row is `20 * w` bytes. -/
theorem scaleBlockX_length (data : List Nat) (w y : Nat) :
    (((List.range w).map (fun x =>
      ((List.range 5).map (fun _dx => pixelBytes data (y * w + x))).flatten)).flatten).length
      = 20 * w := by
  rw [range_map_flatten_length _ w 20 (fun j _ => scaleBlockDx_length data w y j)]
  ring

/-- Six scaled output rows (one source row) are `120 * w` bytes. -/
theorem scaleBlockDy_length (data : List Nat) (w y : Nat) :
    (((List.range 6).map (fun _dy =>
      ((List.range w).map (fun x =>
        ((List.range 5).map (fun _dx => pixelBytes data (y * w + x))).flatten)).flatten)).flatten).length
      = 120 * w := by
  rw [range_map_flatten_length _ 6 (20 * w) (fun _ _ => scaleBlockX_length data w _)]
  ring

/-- Byte `c` of scaled pixel (sx, sy) is byte `c` of source pixel
(sx/5, sy/6). -/
theorem scale_rgba_getElem (data : List Nat) (w h sx sy c : Nat)
    (hsx : sx < 5 * w) (hsy : sy < 6 * h) (hc : c < 4) :
    (scale_rgba data w h)[4 * (sy * (5 * w) + sx) + c]? =
      some (data.getD (4 * ((sy / 6) * w + sx / 5) + c) 0) := by
  obtain ⟨y, dy, hdy, rfl⟩ : ∃ y dy, dy < 6 ∧ sy = 6 * y + dy :=
    ⟨sy / 6, sy % 6, Nat.mod_lt _ (by norm_num), by omega⟩
  obtain ⟨x, dx, hdx, rfl⟩ : ∃ x dx, dx < 5 ∧ sx = 5 * x + dx :=
    ⟨sx / 5, sx % 5, Nat.mod_lt _ (by norm_num), by omega⟩
  have hy : y < h := by omega
  have hx : x < w := by omega
  have e1 : (6 * y + dy) / 6 = y := by omega
  have e2 : (5 * x + dx) / 5 = x := by omega
  rw [e1, e2]
  unfold scale_rgba
  have hidx : 4 * ((6 * y + dy) * (5 * w) + (5 * x + dx)) + c
      = (120 * w) * y + ((20 * w) * dy + (20 * x + (4 * dx + c))) := by ring
  rw [hidx]
  have hbound1 : (20 * w) * dy + (20 * x + (4 * dx + c)) < 120 * w := by
    have h1 : (20 * w) * dy ≤ (20 * w) * 5 := Nat.mul_le_mul_left _ (by omega)
    have h2 : 20 * x + 20 ≤ 20 * w := by omega
    omega
  rw [range_map_flatten_getElem _ h (120 * w) y ((20 * w) * dy + (20 * x + (4 * dx + c)))
    (fun j _ => scaleBlockDy_length data w j) hy hbound1]
  rw [range_map_flatten_getElem _ 6 (20 * w) dy (20 * x + (4 * dx + c))
    (fun _ _ => scaleBlockX_length data w y) hdy (by omega)]
  rw [range_map_flatten_getElem _ w 20 x (4 * dx + c)
    (fun j _ => scaleBlockDx_length data w y j) hx (by omega)]
  rw [range_map_flatten_getElem _ 5 4 dx c (fun _ _ => pixelBytes_length _ _) hdx hc]
  simp [pixelBytes, List.getElem?_map, List.getElem?_range hc]

/-- Total length of the scaled buffer. -/
theorem scale_rgba_length (data : List Nat) (w h : Nat) :
    (scale_rgba data w h).length = (5 * w) * (6 * h) * 4 := by
  unfold scale_rgba
  rw [range_map_flatten_length _ h (120 * w) (fun j _ => scaleBlockDy_length data w j)]
  ring

/-- C6: the upscaler replicates every source pixel of a `width` by `height`
RGBA buffer into a 5 by 6 block: the output has dimensions `(5*width)` by
`(6*height)`, every output pixel (sx, sy) equals the source pixel at
(sx/5, sy/6) under integer division, exactly that buffer with those
dimensions is handed to the external encoder, and a 1 by 1 source yields a
uniform 5 by 6 block of the source RGBA value. -/
theorem upscale_claim :
    (∀ (data : List Nat) (w h sx sy c : Nat), sx < 5 * w → sy < 6 * h → c < 4 →
      (scale_rgba data w h)[4 * (sy * (5 * w) + sx) + c]? =
        some (data.getD (4 * ((sy / 6) * w + sx / 5) + c) 0))
    ∧ (∀ (data : List Nat) (w h : Nat),
        write_rgba_to_png data w h = ⟨5 * w, 6 * h, scale_rgba data w h⟩)
    ∧ (∀ (data : List Nat) (w h : Nat),
        (scale_rgba data w h).length = (5 * w) * (6 * h) * 4)
    ∧ (∀ r g b a : Nat,
        scale_rgba [r, g, b, a] 1 1 = (List.replicate 30 [r, g, b, a]).flatten) :=
  ⟨fun data w h sx sy c hsx hsy hc => scale_rgba_getElem data w h sx sy c hsx hsy hc,
   fun _ _ _ => rfl,
   fun data w h => scale_rgba_length data w h,
   fun _ _ _ _ => rfl⟩

/-- Witness for C6: the claim instantiated at a concrete 1 by 1 source,
scaled pixel (4, 5), byte 0. -/
theorem upscale_claim_witness :
    (scale_rgba [9, 8, 7, 6] 1 1)[4 * (5 * (5 * 1) + 4) + 0]? =
      some (List.getD [9, 8, 7, 6] (4 * ((5 / 6) * 1 + 4 / 5) + 0) 0) :=
  upscale_claim.1 [9, 8, 7, 6] 1 1 4 5 0 (by norm_num) (by norm_num) (by norm_num)

/-- Little-endian u16 read of the first two bytes, as
`u16::from_le_bytes(src[0..2])` in main.rs line 181. -/
def readU16LE (src : List Nat) : Nat := src.getD 0 0 + 256 * src.getD 1 0

/-- Big-endian u32 read of the first four bytes, as
`u32::from_be_bytes(src[0..4])` in main.rs line 170. -/
def readU32BE (src : List Nat) : Nat :=
  src.getD 0 0 * 16777216 + src.getD 1 0 * 65536 + src.getD 2 0 * 256 + src.getD 3 0

/-- Zero-padded minimum-two-digit decimal rendering, as the Rust format
specifier 02 in main.rs line 191. -/
def pad2 (n : Nat) : String := if n < 10 then "0" ++ toString n else toString n

/-- Output identity of sprite frame `n` of a file with base name `stem`
(main.rs lines 190-194). -/
def frameFilename (stem : String) (n : Nat) : String :=
  "png/" ++ stem ++ "-" ++ pad2 n ++ ".png"

/-- One emitted sprite frame: its output identity, the dimensions passed to
the writer (before upscaling), and the decoded RGBA bytes. -/
structure Frame where
  name : String
  width : Nat
  height : Nat
  rgba : List Nat
deriving DecidableEq

/-- How a run of the frame-walking loop ended: the cursor reached the end of
the buffer, an out-of-bounds index or slice (a Rust panic) occurred, or the
modelling fuel ran out (the loop had not terminated within the fuel). -/
inductive WalkStatus where
  | finished
  | oob
  | noFuel
deriving DecidableEq

/-- Frame-walking loop of extract_sprites_ega (main.rs lines 179-200),
with explicit fuel because a record size of 0 never advances the cursor.
The result collects the frames emitted before the loop ended, in emission
order, together with how it ended.  The three bound checks are exactly the
conditions under which the Rust code panics: the header reads `src[0..2]`,
`src[2]`, `src[3]` need 4 bytes; the interleaved decode of `&src[4..]`
indexes up to `byte_width*height` bytes past the header; the cursor slice
`&src[input_size..]` needs `input_size <= src.len()`. -/
def walkFrames (stem : String) : Nat → Nat → List Nat → List Frame × WalkStatus
  | 0, _n, src => ([], if src = [] then .finished else .noFuel)
  | fuel + 1, n, src =>
    if src = [] then ([], .finished)
    else if 4 ≤ src.length then
      let input_size := readU16LE src
      let byte_width := 2 * src.getD 2 0
      let hgt := src.getD 3 0
      let width := 2 * byte_width
      if byte_width * hgt ≤ (src.drop 4).length then
        let frame : Frame := ⟨frameFilename stem n, width, hgt,
          decode_interleaved_ega_to_rgba (src.drop 4) byte_width hgt⟩
        if input_size ≤ src.length then
          let r := walkFrames stem fuel (n + 1) (src.drop input_size)
          (frame :: r.1, r.2)
        else ([frame], .oob)
      else ([], .oob)
    else ([], .oob)

/-- Result of extract_sprites_ega for one file.  The two rejection
constructors model the printed diagnostic followed by `return Ok(())`
(main.rs lines 165-175): no output is produced for the file and the caller
continues with the next file. -/
inductive ExtractResult where
  | tooSmall
  | sizeIncorrect
  | frames (r : List Frame × WalkStatus)
deriving DecidableEq

/-- extract_sprites_ega (main.rs lines 161-203): validation of the container
followed by the frame-walking loop on the bytes after the 4-byte size. -/
def extract_sprites_ega (stem : String) (fuel : Nat) (src : List Nat) : ExtractResult :=
  if src.length < 4 then .tooSmall
  else if readU32BE src + 4 ≠ src.length then .sizeIncorrect
  else .frames (walkFrames stem fuel 0 (src.drop 4))

/-- Which decoder path the dispatcher takes for one input file. -/
inductive Route where
  | fullscreen
  | sprites
deriving DecidableEq

/-- Format dispatch in main (main.rs lines 222-226): exactly 32,000 bytes
selects the full-screen planar path, anything else the sprite-sheet path. -/
def dispatchFormat (src : List Nat) : Route :=
  if src.length = 32000 then .fullscreen else .sprites

/-- Walking an empty remainder finishes immediately, whatever the fuel. -/
theorem walkFrames_nil (stem : String) (fuel n : Nat) :
    walkFrames stem fuel n [] = ([], .finished) := by
  cases fuel <;> rfl

/-- Step equation of the walking loop when all three bound checks pass: one
frame is emitted with the header dimensions and the cursor advances by
exactly the declared record size. -/
theorem walkFrames_cons_step (stem : String) (fuel n : Nat) (src : List Nat)
    (h4 : 4 ≤ src.length)
    (hdec : 2 * src.getD 2 0 * src.getD 3 0 ≤ (src.drop 4).length)
    (hsz : readU16LE src ≤ src.length) :
    walkFrames stem (fuel + 1) n src =
      (⟨frameFilename stem n, 2 * (2 * src.getD 2 0), src.getD 3 0,
          decode_interleaved_ega_to_rgba (src.drop 4) (2 * src.getD 2 0) (src.getD 3 0)⟩ ::
        (walkFrames stem fuel (n + 1) (src.drop (readU16LE src))).1,
       (walkFrames stem fuel (n + 1) (src.drop (readU16LE src))).2) := by
  obtain ⟨a, l, rfl⟩ : ∃ a l, src = a :: l := by
    cases src with
    | nil => simp at h4
    | cons a l => exact ⟨a, l, rfl⟩
  simp only [walkFrames]
  rw [if_neg (by simp), if_pos h4, if_pos hdec, if_pos hsz]

/-- The walking loop raises an out-of-bounds when fewer than 4 header bytes
remain in a non-empty buffer. -/
theorem walkFrames_oob_small (stem : String) (fuel n : Nat) (src : List Nat)
    (hne : src ≠ []) (h4 : ¬ 4 ≤ src.length) :
    walkFrames stem (fuel + 1) n src = ([], .oob) := by
  obtain ⟨a, l, rfl⟩ : ∃ a l, src = a :: l := by
    cases src with
    | nil => exact absurd rfl hne
    | cons a l => exact ⟨a, l, rfl⟩
  simp only [walkFrames]
  rw [if_neg (by simp), if_neg h4]

/-- The walking loop raises an out-of-bounds when the interleaved decode
would read past the remaining bytes. -/
theorem walkFrames_oob_decode (stem : String) (fuel n : Nat) (src : List Nat)
    (h4 : 4 ≤ src.length)
    (hdec : ¬ 2 * src.getD 2 0 * src.getD 3 0 ≤ (src.drop 4).length) :
    walkFrames stem (fuel + 1) n src = ([], .oob) := by
  obtain ⟨a, l, rfl⟩ : ∃ a l, src = a :: l := by
    cases src with
    | nil => simp at h4
    | cons a l => exact ⟨a, l, rfl⟩
  simp only [walkFrames]
  rw [if_neg (by simp), if_pos h4, if_neg hdec]

/-- C3: the sprite-sheet demultiplexer rejects with the "too small"
diagnostic exactly when fewer than 4 bytes are present, rejects with the
"size field incorrect" diagnostic exactly when 4 or more bytes are present
but the big-endian u32 size field plus 4 differs from the total length, and
otherwise proceeds to the frame-walking loop on the remaining bytes.  Both
rejections model a printed diagnostic followed by a successful return. -/
theorem sprite_validation_claim :
    ∀ (stem : String) (fuel : Nat) (src : List Nat),
      (extract_sprites_ega stem fuel src = .tooSmall ↔ src.length < 4)
      ∧ (extract_sprites_ega stem fuel src = .sizeIncorrect ↔
          (4 ≤ src.length ∧ readU32BE src + 4 ≠ src.length))
      ∧ (4 ≤ src.length → readU32BE src + 4 = src.length →
          extract_sprites_ega stem fuel src =
            .frames (walkFrames stem fuel 0 (src.drop 4))) := by
  intro stem fuel src
  by_cases h1 : src.length < 4
  · refine ⟨by simp [extract_sprites_ega, h1], ?_, fun h => absurd h (by omega)⟩
    simp only [extract_sprites_ega, if_pos h1]
    constructor
    · intro h
      exact absurd h (by simp)
    · intro h
      omega
  · by_cases h2 : readU32BE src + 4 = src.length
    · refine ⟨?_, ?_, fun _ _ => by simp [extract_sprites_ega, h1, h2]⟩
      · simp [extract_sprites_ega, h1, h2]
      · simp [extract_sprites_ega, h1, h2]
    · refine ⟨?_, ?_, fun _ h => absurd h h2⟩
      · simp [extract_sprites_ega, h1, h2]
      · simp only [extract_sprites_ega, if_neg h1, if_pos h2]
        constructor
        · intro _
          exact ⟨by omega, h2⟩
        · intro _
          trivial

/-- Witness for C3: a 4-byte container whose size field (0, big-endian) plus
4 equals its length proceeds to the walking loop. -/
theorem sprite_validation_claim_witness :
    extract_sprites_ega "w" 3 [0, 0, 0, 0] =
      .frames (walkFrames "w" 3 0 (([0, 0, 0, 0] : List Nat).drop 4)) :=
  (sprite_validation_claim "w" 3 [0, 0, 0, 0]).2.2 (by decide) (by decide)

/-- C5: the dispatcher takes the full-screen planar path exactly when the
input is 32,000 bytes long, and its choice depends only on the length. -/
theorem dispatch_claim :
    ∀ src : List Nat,
      (dispatchFormat src = .fullscreen ↔ src.length = 32000)
      ∧ (∀ src2 : List Nat, src.length = src2.length →
          dispatchFormat src = dispatchFormat src2) := by
  intro src
  constructor
  · by_cases h : src.length = 32000 <;> simp [dispatchFormat, h]
  · intro src2 he
    simp [dispatchFormat, he]

/-- Witness for C5: two different 1-byte inputs dispatch identically. -/
theorem dispatch_claim_witness : dispatchFormat [5] = dispatchFormat [7] :=
  (dispatch_claim [5]).2 [7] rfl

/-- The interleaved decoder reads only the first `span * height` bytes, so
appending further bytes (the following records of a sprite sheet) does not
change the decoded frame. -/
theorem decode_interleaved_append (body rest : List Nat) (span hgt : Nat)
    (hb : span * hgt ≤ body.length) :
    decode_interleaved_ega_to_rgba (body ++ rest) span hgt =
      decode_interleaved_ega_to_rgba body span hgt := by
  unfold decode_interleaved_ega_to_rgba
  congr 1
  apply List.map_congr_left
  intro y hy
  congr 1
  apply List.map_congr_left
  intro x hx
  have hy2 : y < hgt := List.mem_range.mp hy
  have hx2 : x < 2 * span := List.mem_range.mp hx
  have hofs : y * span + x / 2 < body.length := by
    have h1 : x / 2 < span := by omega
    have h2 : (y + 1) * span ≤ hgt * span := Nat.mul_le_mul_right _ (by omega)
    rw [Nat.succ_mul] at h2
    have h3 : span * hgt = hgt * span := Nat.mul_comm _ _
    omega
  simp only [nibbleAt]
  rw [List.getD_append _ _ _ _ hofs]

/-- One record of a sprite-sheet container: the two header bytes after the
record size encode half the byte width and the height, then the body. -/
structure SpriteRecord where
  halfByteWidth : Nat
  height : Nat
  body : List Nat
deriving DecidableEq

/-- Well-formed header fields: both one-byte fields are bytes and the
record size (4 header bytes plus the body) fits the u16 size field. -/
def SpriteRecord.wf (r : SpriteRecord) : Prop :=
  r.halfByteWidth < 256 ∧ r.height < 256 ∧ 4 + r.body.length < 65536

/-- The record body holds the `span * height = (2*halfByteWidth) * height`
bytes the interleaved decode of the record reads. -/
def SpriteRecord.bodyFits (r : SpriteRecord) : Prop :=
  2 * r.halfByteWidth * r.height ≤ r.body.length

/-- Byte encoding of one record: u16 little-endian record size (declared as
the exact distance to the next record header), half byte width, height,
body. -/
def encodeRecord (r : SpriteRecord) : List Nat :=
  (4 + r.body.length) % 256 :: (4 + r.body.length) / 256 % 256 ::
    r.halfByteWidth :: r.height :: r.body

/-- Concatenation of encoded records: the container payload after the 4-byte
big-endian size field. -/
def encodeRecords : List SpriteRecord → List Nat
  | [] => []
  | r :: rs => encodeRecord r ++ encodeRecords rs

/-- The frame the walking loop emits for record `r` at frame index `n`. -/
def mkFrame (stem : String) (n : Nat) (r : SpriteRecord) : Frame :=
  ⟨frameFilename stem n, 2 * (2 * r.halfByteWidth), r.height,
    decode_interleaved_ega_to_rgba r.body (2 * r.halfByteWidth) r.height⟩

/-- The frames the walking loop should emit for a record list, starting at
frame index `n`. -/
def expectedFrames (stem : String) : Nat → List SpriteRecord → List Frame
  | _, [] => []
  | n, r :: rs => mkFrame stem n r :: expectedFrames stem (n + 1) rs

/-- Length of one encoded record. -/
theorem encodeRecord_length (r : SpriteRecord) :
    (encodeRecord r).length = 4 + r.body.length := by
  simp [encodeRecord]
  omega

/-- The size field written by `encodeRecord` reads back as the record
length when the record is well formed. -/
theorem readU16LE_encodeRecords (r : SpriteRecord) (rs : List SpriteRecord)
    (hwf : r.wf) :
    readU16LE (encodeRecords (r :: rs)) = 4 + r.body.length := by
  obtain ⟨_, _, h16⟩ := hwf
  have ha : (encodeRecords (r :: rs)).getD 0 0 = (4 + r.body.length) % 256 := rfl
  have hb : (encodeRecords (r :: rs)).getD 1 0 = (4 + r.body.length) / 256 % 256 := rfl
  show (encodeRecords (r :: rs)).getD 0 0 + 256 * (encodeRecords (r :: rs)).getD 1 0 = _
  rw [ha, hb]
  omega

/-- Walking the encoding of well-formed, body-sufficient records with enough
fuel emits exactly the expected frames and finishes. -/
theorem walkFrames_encodeRecords (stem : String) :
    ∀ (rs : List SpriteRecord) (n fuel : Nat),
      (∀ r ∈ rs, r.wf ∧ r.bodyFits) → rs.length ≤ fuel →
      walkFrames stem fuel n (encodeRecords rs) = (expectedFrames stem n rs, .finished) := by
  intro rs
  induction rs with
  | nil => intro n fuel _ _; exact walkFrames_nil stem fuel n
  | cons r rs ih =>
    intro n fuel hwf hfuel
    obtain ⟨f, rfl⟩ : ∃ f, fuel = f + 1 := by
      cases fuel with
      | zero => simp at hfuel
      | succ f => exact ⟨f, rfl⟩
    obtain ⟨hrwf, hrfits⟩ := hwf r (List.mem_cons_self r rs)
    have hwf2 : ∀ q ∈ rs, q.wf ∧ q.bodyFits := fun q hq => hwf q (List.mem_cons_of_mem _ hq)
    have h16 : readU16LE (encodeRecords (r :: rs)) = 4 + r.body.length :=
      readU16LE_encodeRecords r rs hrwf
    have hlen : (encodeRecords (r :: rs)).length =
        4 + r.body.length + (encodeRecords rs).length := by
      show (encodeRecord r ++ encodeRecords rs).length = _
      rw [List.length_append, encodeRecord_length]
    have hgetD2 : (encodeRecords (r :: rs)).getD 2 0 = r.halfByteWidth := rfl
    have hgetD3 : (encodeRecords (r :: rs)).getD 3 0 = r.height := rfl
    have hdrop4 : (encodeRecords (r :: rs)).drop 4 = r.body ++ encodeRecords rs := rfl
    have h4 : 4 ≤ (encodeRecords (r :: rs)).length := by omega
    have hdec : 2 * (encodeRecords (r :: rs)).getD 2 0 * (encodeRecords (r :: rs)).getD 3 0 ≤
        ((encodeRecords (r :: rs)).drop 4).length := by
      rw [hgetD2, hgetD3, hdrop4, List.length_append]
      have := hrfits
      unfold SpriteRecord.bodyFits at this
      omega
    have hsz : readU16LE (encodeRecords (r :: rs)) ≤ (encodeRecords (r :: rs)).length := by
      omega
    rw [walkFrames_cons_step stem f n _ h4 hdec hsz]
    have hdroprec : (encodeRecords (r :: rs)).drop (readU16LE (encodeRecords (r :: rs))) =
        encodeRecords rs := by
      rw [h16, show 4 + r.body.length = (encodeRecord r).length from
        (encodeRecord_length r).symm]
      exact List.drop_left _ _
    rw [hdroprec, ih (n + 1) f hwf2 (by simpa using hfuel)]
    rw [hgetD2, hgetD3, hdrop4]
    rw [decode_interleaved_append r.body (encodeRecords rs) (2 * r.halfByteWidth) r.height hrfits]
    rfl

/-- Expected frames count one per record. -/
theorem expectedFrames_length (stem : String) :
    ∀ (rs : List SpriteRecord) (n : Nat), (expectedFrames stem n rs).length = rs.length := by
  intro rs
  induction rs with
  | nil => intro n; rfl
  | cons r rs ih => intro n; simp [expectedFrames, ih]

/-- The i-th expected frame is the frame of the i-th record at index n+i. -/
theorem expectedFrames_getD (stem : String) :
    ∀ (rs : List SpriteRecord) (n i : Nat), i < rs.length →
      (expectedFrames stem n rs).getD i ⟨"", 0, 0, []⟩ =
        mkFrame stem (n + i) (rs.getD i ⟨0, 0, []⟩) := by
  intro rs
  induction rs with
  | nil => intro n i hi; simp at hi
  | cons r rs ih =>
    intro n i hi
    cases i with
    | zero => simp [expectedFrames]
    | succ j =>
      have hj : j < rs.length := by simpa using hi
      have harith : n + 1 + j = n + (j + 1) := by omega
      simp only [expectedFrames, List.getD_cons_succ]
      rw [ih (n + 1) j hj, harith]

/-- C4 (amended): for a container of well-formed records (declared record
size equal to the exact distance to the next header or buffer end) whose
bodies each hold the `2*halfByteWidth*height` bytes their decode reads, the
walking loop emits exactly one frame per record, in record order, finishing
cleanly; the i-th frame (from 0) is named from the base name and the
zero-padded 2-digit index i, has width `2*(2*halfByteWidth)` and the height
of its record header.  The second conjunct is the loop step equation: after
each record the cursor advances by exactly the declared record size. -/
theorem sprite_demux_claim :
    (∀ (stem : String) (fuel : Nat) (rs : List SpriteRecord),
      (∀ r ∈ rs, r.wf ∧ r.bodyFits) → rs.length ≤ fuel →
      walkFrames stem fuel 0 (encodeRecords rs) = (expectedFrames stem 0 rs, .finished)
      ∧ (expectedFrames stem 0 rs).length = rs.length
      ∧ (∀ i, i < rs.length →
          ((expectedFrames stem 0 rs).getD i ⟨"", 0, 0, []⟩).name = frameFilename stem i
          ∧ ((expectedFrames stem 0 rs).getD i ⟨"", 0, 0, []⟩).width
              = 2 * (2 * (rs.getD i ⟨0, 0, []⟩).halfByteWidth)
          ∧ ((expectedFrames stem 0 rs).getD i ⟨"", 0, 0, []⟩).height
              = (rs.getD i ⟨0, 0, []⟩).height))
    ∧ (∀ (stem : String) (fuel n : Nat) (src : List Nat),
        4 ≤ src.length → 2 * src.getD 2 0 * src.getD 3 0 ≤ (src.drop 4).length →
        readU16LE src ≤ src.length →
        (walkFrames stem (fuel + 1) n src).1 =
          ⟨frameFilename stem n, 2 * (2 * src.getD 2 0), src.getD 3 0,
            decode_interleaved_ega_to_rgba (src.drop 4) (2 * src.getD 2 0) (src.getD 3 0)⟩ ::
          (walkFrames stem fuel (n + 1) (src.drop (readU16LE src))).1) := by
  constructor
  · intro stem fuel rs hwf hfuel
    refine ⟨walkFrames_encodeRecords stem rs 0 fuel hwf hfuel, expectedFrames_length stem rs 0, ?_⟩
    intro i hi
    rw [expectedFrames_getD stem rs 0 i hi]
    have h0 : 0 + i = i := by omega
    rw [h0]
    exact ⟨rfl, rfl, rfl⟩
  · intro stem fuel n src h4 hdec hsz
    rw [walkFrames_cons_step stem fuel n src h4 hdec hsz]

/-- Counterexample to C4 as frozen: the container `[0,0,0,4,4,0,1,1]`
passes both validations (size field 4 plus 4 equals the length 8) and holds
exactly one well-formed record (declared record size 4 equals the distance
to the end of the buffer, as the third conjunct checks), yet zero frames are
emitted: the record's header declares halfByteWidth 1 and height 1, so the
decode needs 2 bytes after the header but 0 remain, an out-of-bounds read
(a panic in the Rust source), so the claim's "exactly one raster per
record" fails without a body-sufficiency precondition. -/
theorem sprite_demux_claim_counterexample :
    extract_sprites_ega "s" 9 [0, 0, 0, 4, 4, 0, 1, 1] = .frames ([], .oob)
    ∧ [0, 0, 0, 4, 4, 0, 1, 1] = [0, 0, 0, 4] ++ encodeRecords [⟨1, 1, []⟩]
    ∧ readU16LE (encodeRecords [⟨1, 1, []⟩]) = (encodeRecords [⟨1, 1, []⟩]).length :=
  ⟨rfl, rfl, rfl⟩

/-- Witness for C4: a container of two trivial well-formed records emits
exactly the two expected frames (indices 00 and 01) and finishes. -/
theorem sprite_demux_claim_witness :
    walkFrames "s" 2 0 (encodeRecords [⟨0, 0, []⟩, ⟨0, 0, []⟩]) =
      (expectedFrames "s" 0 [⟨0, 0, []⟩, ⟨0, 0, []⟩], .finished) :=
  (sprite_demux_claim.1 "s" 2 [⟨0, 0, []⟩, ⟨0, 0, []⟩]
    (by
      intro r hr
      fin_cases hr <;>
        exact ⟨⟨by norm_num, by norm_num, by norm_num⟩, Nat.le_refl 0⟩)
    (by norm_num)).1

/-- Preconditions of the frame-walking loop, iteration by iteration: at
least 4 header bytes remain, the bytes after the header cover the
`span*height = (2*halfByteWidth)*height` the decode reads, and the declared
record size does not exceed the remaining length.  The loop itself checks
none of these (it only tests non-emptiness). -/
inductive SafeWalk : List Nat → Prop where
  | nil : SafeWalk []
  | cons (src : List Nat) (h4 : 4 ≤ src.length)
      (hdec : 2 * src.getD 2 0 * src.getD 3 0 ≤ (src.drop 4).length)
      (hsz : readU16LE src ≤ src.length)
      (rest : SafeWalk (src.drop (readU16LE src))) : SafeWalk src

/-- C9: under the iteration-wise preconditions the walking loop performs no
out-of-bounds indexing or slicing; and the loop genuinely does not enforce
them: a non-empty remainder below 4 bytes, reachable through both top-level
validations (third conjunct, container `[0,0,0,1,9]`), hits an
out-of-bounds access. -/
theorem demux_safety_claim :
    (∀ (stem : String) (n fuel : Nat) (src : List Nat), SafeWalk src →
      (walkFrames stem fuel n src).2 ≠ .oob)
    ∧ (walkFrames "a" 2 0 [1]).2 = .oob
    ∧ extract_sprites_ega "a" 2 [0, 0, 0, 1, 9] = .frames ([], .oob) := by
  refine ⟨?_, rfl, rfl⟩
  intro stem n fuel src hsafe
  induction hsafe generalizing n fuel with
  | nil => rw [walkFrames_nil]; simp
  | cons src h4 hdec hsz rest ih =>
    cases fuel with
    | zero =>
      simp only [walkFrames]
      split <;> simp
    | succ f =>
      rw [walkFrames_cons_step stem f n src h4 hdec hsz]
      exact ih (n + 1) f

/-- Witness for C9: a single record with zero dimensions and an exactly
consumed buffer walks without out-of-bounds. -/
theorem demux_safety_claim_witness :
    (walkFrames "s" 2 0 [4, 0, 0, 0]).2 ≠ WalkStatus.oob :=
  demux_safety_claim.1 "s" 0 2 [4, 0, 0, 0]
    (SafeWalk.cons _ (by decide) (by decide) (by decide) SafeWalk.nil)

/-- Record sizes that always advance the cursor: every record's declared
size is at least 1 and within the remaining length. -/
inductive PosSizes : List Nat → Prop where
  | nil : PosSizes []
  | cons (src : List Nat) (hne : src ≠ []) (h1 : 1 ≤ readU16LE src)
      (hle : readU16LE src ≤ src.length)
      (rest : PosSizes (src.drop (readU16LE src))) : PosSizes src

/-- C10: the walking loop terminates (the fuel bound `length + 1` is never
exhausted) whenever every record size is at least 1 and within the
remaining length, because each iteration strictly shrinks the remainder;
and a record size of 0 is the only way the cursor fails to advance: for a
non-empty remainder, dropping the declared size leaves the remainder
unchanged exactly when that size is 0. -/
theorem demux_termination_claim :
    (∀ (stem : String) (n : Nat) (src : List Nat) (fuel : Nat), PosSizes src →
      src.length < fuel → (walkFrames stem fuel n src).2 ≠ .noFuel)
    ∧ (∀ src : List Nat, src ≠ [] →
        (src.drop (readU16LE src) = src ↔ readU16LE src = 0)) := by
  constructor
  · intro stem n src fuel hpos
    induction hpos generalizing n fuel with
    | nil => intro _; rw [walkFrames_nil]; simp
    | cons src hne h1 hle rest ih =>
      intro hfuel
      cases fuel with
      | zero => omega
      | succ f =>
        by_cases h4 : 4 ≤ src.length
        · by_cases hdec : 2 * src.getD 2 0 * src.getD 3 0 ≤ (src.drop 4).length
          · rw [walkFrames_cons_step stem f n src h4 hdec hle]
            apply ih (n + 1) f
            have hld : (src.drop (readU16LE src)).length = src.length - readU16LE src :=
              List.length_drop _ _
            omega
          · rw [walkFrames_oob_decode stem f n src h4 hdec]; simp
        · rw [walkFrames_oob_small stem f n src hne h4]; simp
  · intro src hne
    constructor
    · intro h
      have hl := congrArg List.length h
      rw [List.length_drop] at hl
      have h1 : 1 ≤ src.length := by
        cases src with
        | nil => exact absurd rfl hne
        | cons a l => simp
      omega
    · intro h
      rw [h]
      rfl

/-- Witness for C10: a single record of declared size 4 consuming the whole
buffer terminates within fuel `length + 1`. -/
theorem demux_termination_claim_witness :
    (walkFrames "t" 5 0 [4, 0, 0, 0]).2 ≠ WalkStatus.noFuel :=
  demux_termination_claim.1 "t" 0 [4, 0, 0, 0] 5
    (PosSizes.cons _ (by simp) (by decide) (by decide) PosSizes.nil) (by norm_num)
